import Mathlib

/-!
Verification of the matrix-rain animation in `bio.py` (terminal bio
screensaver).  The Python source is shallowly embedded: Python `int` is
`Int` (Python's `//` and `%` with a positive divisor agree with Lean's
Euclidean `Int./` and `Int.%`), wall-clock times and delays are `ℚ`,
strings are `String`/`List Char`.  Calls to the `random` module are
modelled by explicit sample parameters together with the range
guarantees documented for `random.randint` (inclusive bounds) and the
exact-arithmetic semantics of `random.uniform(a, b) = a + (b-a)*random()`
with `random() ∈ [0, 1)`, i.e. a value in `[a, b)`.
-/

namespace BioMatrix

/-- `MATRIX_CHARS` from bio.py: the pool of glyphs used for the rain. -/
def MATRIX_CHARS : List Char :=
  "abcdefghijklmnopqrstuvwxyzABCDEFGHIJKLMNOPQRSTUVWXYZ0123456789@#$%&*+-/\\|()[]\x7b\x7d<>".toList

/-- `len(COLOR_CYCLE)` from bio.py: seven curses colors are cycled. -/
def COLOR_CYCLE_LEN : Nat := 7

/-- `BIO_LINES` from bio.py: the default overlay text. -/
def BIO_LINES : List String :=
  [ "Tizzy Whizzy",
    "Cybersecurity Instructor & Developer",
    "I teach practical cybersecurity with hands-on tooling, Termux workflows, and playful demos.",
    "Skills: Python · Bash/Termux · Git · Automation · Teaching",
    "Contact: http://t.me/Mr_Whizzy01  ·  Channel: https://t.me/t_tech_X" ]

/-- State of one `MatrixColumn` object: fixed x and screen height, mutable
head position `y`, seconds-per-step `speed`, trail `length`, time of the
last step, and the pre-generated character buffer `chars`. -/
structure MatrixColumn where
  x : Int
  height : Int
  y : Int
  speed : ℚ
  length : Int
  last_step : ℚ
  chars : List Char
deriving DecidableEq

/-- The random samples drawn by one execution of `MatrixColumn.reset`:
`y0` for `random.randint(-height // 2, 0)`, `speed0` for
`random.uniform(0.05, 0.4)`, `length0` for
`random.randint(4, max(6, height // 6))`, `charsAt n` for the n-th
`random.choice(MATRIX_CHARS)`, and `now` for `time.time()`. -/
structure ResetSample where
  y0 : Int
  speed0 : ℚ
  length0 : Int
  charsAt : Nat → Char
  now : ℚ

/-- The range guarantees of the `random` calls inside `reset` for a column
of height `h` (see the module docstring for the `uniform` convention). -/
def ResetSample.Valid (h : Int) (r : ResetSample) : Prop :=
  (-h) / 2 ≤ r.y0 ∧ r.y0 ≤ 0 ∧
  (1/20 : ℚ) ≤ r.speed0 ∧ r.speed0 < 2/5 ∧
  4 ≤ r.length0 ∧ r.length0 ≤ max 6 (h / 6) ∧
  ∀ n, r.charsAt n ∈ MATRIX_CHARS

/-- `MatrixColumn.reset`: re-seed head position, speed, trail length, step
clock, and pre-generate `height + length + 10` characters. -/
def MatrixColumn.reset (c : MatrixColumn) (r : ResetSample) : MatrixColumn :=
  { c with
    y := r.y0
    speed := r.speed0
    length := r.length0
    last_step := r.now
    chars := (List.range (c.height + r.length0 + 10).toNat).map r.charsAt }

/-- The random samples drawn by one execution of `MatrixColumn.step` when
the timing condition fires: `slack` for `random.randint(0, height)` in the
off-screen test, and `rs` for the nested `reset` if it triggers. -/
structure StepSample where
  slack : Int
  rs : ResetSample

/-- `MatrixColumn.step` at clock time `now`: if at least `speed` seconds
elapsed since `last_step`, advance the head one cell, record the time, and
reset the column when `y - length > height + slack`. -/
def MatrixColumn.step (c : MatrixColumn) (now : ℚ) (smp : StepSample) : MatrixColumn :=
  if c.speed ≤ now - c.last_step then
    let c1 : MatrixColumn := { c with y := c.y + 1, last_step := now }
    if c1.height + smp.slack < c1.y - c1.length then c1.reset smp.rs else c1
  else c

/-- The cyclic buffer index `(self.y + i) % len(self.chars)` used by
`get_positions` (Python `%` with a positive modulus is Euclidean, matching
`Int.emod`; the `.toNat` is exact because the result is non-negative). -/
def headIndex (c : MatrixColumn) (i : Nat) : Nat :=
  ((c.y + (i : Int)) % (c.chars.length : Int)).toNat

/-- `MatrixColumn.get_positions`: the `(row, char, is_head)` triples of the
trail cells currently on screen, in trail-offset order.  List indexing is
rendered with `getD` (the default is unreachable; see
`getPositionsE`, which models Python's exception behaviour exactly). -/
def MatrixColumn.get_positions (c : MatrixColumn) : List (Int × Char × Bool) :=
  (List.range c.length.toNat).filterMap fun (i : Nat) =>
    if 0 ≤ c.y - (i : Int) ∧ c.y - (i : Int) < c.height then
      some (c.y - (i : Int), c.chars.getD (headIndex c i) ' ', decide (i = 0))
    else
      none

/-- Exception-aware counterpart of `get_positions`: `none` models the
`ZeroDivisionError` that `% 0` would raise on an empty buffer and the
`IndexError` an out-of-range lookup would raise. -/
def getPosAux (c : MatrixColumn) : List Nat → Option (List (Int × Char × Bool))
  | [] => some []
  | i :: is =>
    if 0 ≤ c.y - (i : Int) ∧ c.y - (i : Int) < c.height then
      if c.chars.length = 0 then none
      else
        match c.chars.get? (headIndex c i) with
        | none => none
        | some ch => (getPosAux c is).map ((c.y - (i : Int), ch, decide (i = 0)) :: ·)
    else getPosAux c is

/-- `get_positions` with Python's failure modes made explicit. -/
def MatrixColumn.getPositionsE (c : MatrixColumn) : Option (List (Int × Char × Bool)) :=
  getPosAux c (List.range c.length.toNat)

/-- `center_x_for_text` from bio.py: `max(0, (screen_width - len(text)) // 2)`. -/
def center_x_for_text (screen_width : Int) (text : String) : Int :=
  max 0 ((screen_width - (text.length : Int)) / 2)

/-- A concrete column (x 0, height 10, head 3, speed 1/10, trail 4,
last step at time 0, an 8-character buffer) used to instantiate theorems. -/
def wCol : MatrixColumn := ⟨0, 10, 3, 1/10, 4, 0, "abcdefgh".toList⟩

/-- A concrete reset sample valid for height 10. -/
def wReset : ResetSample := ⟨-2, 1/10, 5, fun _ => 'a', 7⟩

/-- A concrete step sample with slack 0. -/
def wStep : StepSample := ⟨0, wReset⟩

/-- A concrete column with a negative head position and a buffer of the
size `reset` produces (10 + 4 + 10 = 24), used to instantiate theorems. -/
def wCol2 : MatrixColumn := ⟨0, 10, -3, 1/10, 4, 0, List.replicate 24 'x'⟩

/-- Whether `stdscr.addch` at (y, x) succeeds on an h-by-w screen;
`false` models the `curses.error` an off-screen write raises. -/
def addch_ok (h w y x : Int) : Bool :=
  decide (0 ≤ y) && decide (y < h) && decide (0 ≤ x) && decide (x < w)

/-- One attempted screen write: row, column, character, color-pair number
(0 standing for "no attribute"). -/
abbrev Attempt := Int × Int × Char × Nat

/-- One rain cell as `draw_matrix` renders it: the head in color pair 50,
trail cells in pair 51. -/
def rainAttempt (cx : Int) (p : Int × Char × Bool) : Attempt :=
  (p.1, cx, p.2.1, if p.2.2 then 50 else 51)

/-- Every cell `draw_matrix` tries to draw, in frame order. -/
def matrixAttempts (cols : List MatrixColumn) : List Attempt :=
  cols.flatMap fun col => col.get_positions.map (rainAttempt col.x)

/-- `draw_matrix`: each visible cell of each column is drawn with `addch`
under `try/except curses.error: pass`, so an off-screen cell is skipped
and the traversal continues with the next cell. -/
def draw_matrix (h w : Int) (cols : List MatrixColumn) : List Attempt :=
  cols.flatMap fun col => col.get_positions.flatMap fun p =>
    if addch_ok h w p.1 col.x then [rainAttempt col.x p] else []

/-- Python `line.split(" ")` on the character list of a line: split on
every single space, keeping empty words. -/
def splitWords : List Char → List (List Char)
  | [] => [[]]
  | c :: cs =>
    if c = ' ' then [] :: splitWords cs
    else
      match splitWords cs with
      | [] => [[c]]
      | word :: ws => (c :: word) :: ws

/-- Running state of `type_bio_overlay`: the attempted writes, the writes
that landed on screen (the attempts surviving the per-cell `try/except`),
the cursor column `x`, the shared color-cycle counter `cnt`, and the
accumulated `time.sleep` total. -/
structure TState where
  attempts : List Attempt
  writes : List Attempt
  x : Int
  cnt : Nat
  sleep : ℚ
deriving DecidableEq

/-- `stdscr.addch(y, x, ch)` wrapped in `try/except curses.error: pass`:
the attempt is always recorded, the write only when it is on screen. -/
def tryAddch (h w : Int) (s : TState) (y : Int) (ch : Char) (pair : Nat) : TState :=
  { s with
    attempts := s.attempts ++ [(y, s.x, ch, pair)]
    writes := s.writes ++ (if addch_ok h w y s.x then [(y, s.x, ch, pair)] else []) }

/-- One character of a word: draw it, advance the cursor, sleep the
per-character delay. -/
def typeChar (h w y : Int) (pair : Nat) (cd : ℚ) (s : TState) (ch : Char) : TState :=
  let s1 := tryAddch h w s y ch pair
  { s1 with x := s1.x + 1, sleep := s1.sleep + cd }

/-- One word: advance the color cycle once, type the characters, then the
trailing space followed by the per-word delay. -/
def typeWord (h w y : Int) (wd cd : ℚ) (s : TState) (word : List Char) : TState :=
  let color_idx := s.cnt % COLOR_CYCLE_LEN
  let pair := color_idx % COLOR_CYCLE_LEN + 1
  let s1 := { s with cnt := s.cnt + 1 }
  let s2 := word.foldl (typeChar h w y pair cd) s1
  let s3 := tryAddch h w s2 y ' ' 0
  { s3 with x := s3.x + 1, sleep := s3.sleep + wd }

/-- One line: center the cursor, type the words, pause 0.25 s. -/
def typeLine (h w y : Int) (wd cd : ℚ) (s : TState) (line : String) : TState :=
  let s1 := { s with x := center_x_for_text w line }
  let s2 := (splitWords line.toList).foldl (typeWord h w y wd cd) s1
  { s2 with sleep := s2.sleep + 1/4 }

/-- The lines in order, `enumerate` supplying consecutive rows. -/
def typeLines (h w : Int) (wd cd : ℚ) : Int → TState → List String → TState
  | _, s, [] => s
  | y, s, line :: ls => typeLines h w wd cd (y + 1) (typeLine h w y wd cd s line) ls

/-- `type_bio_overlay`: type the bio word-by-word on a vertically centered
block, threading the shared color-cycle counter from `cnt0`. -/
def type_bio_overlay (h w : Int) (lines : List String) (cnt0 : Nat) (wd cd : ℚ) : TState :=
  typeLines h w wd cd (max 2 ((h - (lines.length : Int)) / 2)) ⟨[], [], 0, cnt0, 0⟩ lines

/-- The screen-write bookkeeping of `TState`: what landed on screen is
exactly the in-bounds part of what was attempted. -/
def WritesInv (h w : Int) (s : TState) : Prop :=
  s.writes = s.attempts.filter fun a => addch_ok h w a.1 a.2.1

/-- Output streams of the process. -/
inductive OutStream
  | stdout
  | stderr
deriving DecidableEq

/-- The three ways a run ends: the quit key breaks the main loop,
`KeyboardInterrupt` is caught and swallowed inside `main`, or
`curses.wrapper` propagates a `curses.error` out of display setup. -/
inductive RunEnding
  | quitKey
  | interrupt
  | displayError (msg : String)

/-- Exit code and printed diagnostics of the entrypoint: a clean quit and
an interrupt fall off the end of the script (exit code 0, nothing
printed); a display error prints two human-readable lines with `print` —
standard output — and calls `sys.exit(1)`. -/
def program_exit : RunEnding → Nat × List (OutStream × String)
  | .quitKey => (0, [])
  | .interrupt => (0, [])
  | .displayError m =>
      (1,
       [(.stdout,
         "Terminal does not support curses or is too small. Run in a normal terminal."),
        (.stdout, "Error: " ++ m)])

/-- The per-frame result of `stdscr.getch()`: quit key, space, some other
key, or -1 (no pending input). -/
inductive InEvent
  | qKey
  | spaceKey
  | otherKey
  | noKey
deriving DecidableEq

/-- The `typed` and `do_type` flags of the main loop. -/
structure LoopState where
  typed : Bool
  do_type : Bool
deriving DecidableEq

/-- Input handling at the top of an iteration: the quit key breaks the
loop (`none`), space sets `do_type`, anything else changes nothing. -/
def applyInput (s : LoopState) : InEvent → Option LoopState
  | .qKey => none
  | .spaceKey => some { s with do_type := true }
  | .otherKey => some s
  | .noKey => some s

/-- The overlay guard `do_type and (not typed or repeat_bio)`. -/
def typesNow (repeat_bio : Bool) (s : LoopState) : Bool :=
  s.do_type && (!s.typed || repeat_bio)

/-- State after the overlay decision: a completed pass sets `typed` and
re-queues exactly when repeat mode is on
(`do_type = False if not repeat_bio else True`). -/
def afterOverlay (repeat_bio : Bool) (s : LoopState) : LoopState :=
  if typesNow repeat_bio s then { typed := true, do_type := repeat_bio } else s

/-- The main loop on a list of per-frame inputs, recording for every
iteration whether the typing overlay ran; it stops at the quit key. -/
def runLoop (repeat_bio : Bool) (s : LoopState) : List InEvent → List Bool
  | [] => []
  | e :: es =>
    match applyInput s e with
    | none => []
    | some s1 => typesNow repeat_bio s1 :: runLoop repeat_bio (afterOverlay repeat_bio s1) es

/-- The `--lines` handling at the entrypoint: `args.lines` is `none` when
the flag is absent; `if args.lines and len(args.lines) > 0` keeps the
user's list only when it is non-empty (both `None` and the empty list are
falsy in Python), otherwise the default `BIO_LINES` is installed. -/
def resolve_lines : Option (List String) → List String
  | none => BIO_LINES
  | some ls => if ls.isEmpty then BIO_LINES else ls

end BioMatrix

namespace BioMatrix

/-- C5: for every screen width W and text of length M the centering start
column is `max(0, (W - M) // 2)`, it is never negative, and for M > W it
is clamped to 0. -/
theorem center_x_spec (W : Int) (text : String) :
    center_x_for_text W text = max 0 ((W - (text.length : Int)) / 2) ∧
    ((W : Int) < (text.length : Int) → center_x_for_text W text = 0) ∧
    0 ≤ center_x_for_text W text := by
  refine ⟨rfl, ?_, le_max_left _ _⟩
  intro h
  have hle : (W - (text.length : Int)) / 2 ≤ 0 := by omega
  simp [center_x_for_text, max_eq_left hle]

/-- Witness for C5 at W = 3 and an 5-character text. -/
theorem center_x_spec_witness :
    (3 : Int) < (("hello".length : Nat) : Int) ∧ center_x_for_text 3 "hello" = 0 := by
  refine ⟨by decide, (center_x_spec 3 "hello").2.1 (by decide)⟩

/-- C3: after `reset` on a column of height H ≥ 0, the head lies in
[-H/2, 0] (Python floor division `-H // 2`), the speed in [0.05, 0.4),
the trail length in [4, max(6, H//6)], and the character buffer has
exactly H + length + 10 entries. -/
theorem reset_spec (c : MatrixColumn) (r : ResetSample)
    (h0 : 0 ≤ c.height) (hv : ResetSample.Valid c.height r) :
    (-(c.height)) / 2 ≤ (c.reset r).y ∧ (c.reset r).y ≤ 0 ∧
    (1/20 : ℚ) ≤ (c.reset r).speed ∧ (c.reset r).speed < 2/5 ∧
    4 ≤ (c.reset r).length ∧ (c.reset r).length ≤ max 6 (c.height / 6) ∧
    ((c.reset r).chars.length : Int) = c.height + (c.reset r).length + 10 := by
  obtain ⟨h1, h2, h3, h4, h5, h6, _⟩ := hv
  refine ⟨h1, h2, h3, h4, h5, h6, ?_⟩
  simp only [MatrixColumn.reset, List.length_map, List.length_range]
  omega

/-- Witness for C3: the concrete sample `wReset` on the height-10 column. -/
theorem reset_spec_witness :
    (0 ≤ wCol.height ∧ ResetSample.Valid wCol.height wReset) ∧
    ((-(wCol.height)) / 2 ≤ (wCol.reset wReset).y ∧ (wCol.reset wReset).y ≤ 0 ∧
     (1/20 : ℚ) ≤ (wCol.reset wReset).speed ∧ (wCol.reset wReset).speed < 2/5 ∧
     4 ≤ (wCol.reset wReset).length ∧
     (wCol.reset wReset).length ≤ max 6 (wCol.height / 6) ∧
     ((wCol.reset wReset).chars.length : Int) = wCol.height + (wCol.reset wReset).length + 10) := by
  have hv : ResetSample.Valid wCol.height wReset := by
    refine ⟨by decide, by decide, by norm_num [wReset], by norm_num [wReset],
      by decide, by decide, fun n => ?_⟩
    show 'a' ∈ MATRIX_CHARS
    decide
  exact ⟨⟨by decide, hv⟩, reset_spec wCol wReset (by decide) hv⟩

/-- C2: one `step` call at time `now` is a no-op while less than `speed`
seconds elapsed since `last_step`; otherwise it advances the head by
exactly one cell and records the time, and additionally resets the column
when the advanced head minus the trail length exceeds the height by more
than the sampled slack (drawn from [0, height]). -/
theorem step_spec (c : MatrixColumn) (now : ℚ) (smp : StepSample)
    (_hslack : 0 ≤ smp.slack ∧ smp.slack ≤ c.height) :
    (now - c.last_step < c.speed → c.step now smp = c) ∧
    (c.speed ≤ now - c.last_step → c.y + 1 - c.length ≤ c.height + smp.slack →
      c.step now smp = { c with y := c.y + 1, last_step := now }) ∧
    (c.speed ≤ now - c.last_step → c.height + smp.slack < c.y + 1 - c.length →
      c.step now smp =
        ({ c with y := c.y + 1, last_step := now } : MatrixColumn).reset smp.rs) := by
  refine ⟨fun h => ?_, fun h1 h2 => ?_, fun h1 h2 => ?_⟩
  · simp [MatrixColumn.step, not_le.mpr h]
  · simp [MatrixColumn.step, h1, not_lt.mpr h2]
  · simp [MatrixColumn.step, h1, h2]

/-- Witness for C2: stepping `wCol` at time 1 with slack 0 advances the
head from 3 to 4 without a reset. -/
theorem step_spec_witness :
    (0 ≤ wStep.slack ∧ wStep.slack ≤ wCol.height) ∧
    ((1 - wCol.last_step < wCol.speed → wCol.step 1 wStep = wCol) ∧
     (wCol.speed ≤ 1 - wCol.last_step → wCol.y + 1 - wCol.length ≤ wCol.height + wStep.slack →
       wCol.step 1 wStep = { wCol with y := wCol.y + 1, last_step := 1 }) ∧
     (wCol.speed ≤ 1 - wCol.last_step → wCol.height + wStep.slack < wCol.y + 1 - wCol.length →
       wCol.step 1 wStep =
         ({ wCol with y := wCol.y + 1, last_step := 1 } : MatrixColumn).reset wStep.rs)) :=
  ⟨by decide, step_spec wCol 1 wStep (by decide)⟩

/-- `filterMap` of a conditional-`some` function is a `filter` followed by
a `map`. -/
theorem filterMap_ite {α β : Type} (p : α → Prop) [DecidablePred p] (g : α → β) (l : List α) :
    (l.filterMap fun a => if p a then some (g a) else none)
      = (l.filter fun a => decide (p a)).map g := by
  induction l with
  | nil => rfl
  | cons a l ih => by_cases h : p a <;> simp [h, ih]

/-- C1: every row returned by `get_positions` is on screen; the number of
returned cells is the cardinality of the set of trail offsets i in [0, L)
with 0 ≤ y - i < H; the cell at offset i carries the character at cyclic
buffer index (y + i) mod len(chars); and `is_head` holds exactly for the
offset-0 cell (the one whose row is the head position y). -/
theorem get_positions_spec (c : MatrixColumn) :
    (∀ q ∈ c.get_positions, 0 ≤ q.1 ∧ q.1 < c.height) ∧
    c.get_positions.length
      = ((Finset.range c.length.toNat).filter
          (fun (i : Nat) => 0 ≤ c.y - (i : Int) ∧ c.y - (i : Int) < c.height)).card ∧
    (∀ i : Nat, (i : Int) < c.length → 0 ≤ c.y - (i : Int) → c.y - (i : Int) < c.height →
      (c.y - (i : Int), c.chars.getD (headIndex c i) ' ', decide (i = 0)) ∈ c.get_positions) ∧
    (∀ q ∈ c.get_positions, (q.2.2 = true ↔ q.1 = c.y)) := by
  refine ⟨?_, ?_, ?_, ?_⟩
  · intro q hq
    simp only [MatrixColumn.get_positions, List.mem_filterMap] at hq
    obtain ⟨i, _, hsome⟩ := hq
    split at hsome
    · cases hsome
      rename_i h
      exact ⟨h.1, h.2⟩
    · cases hsome
  · rw [MatrixColumn.get_positions,
      filterMap_ite (fun i : Nat => 0 ≤ c.y - (i : Int) ∧ c.y - (i : Int) < c.height)]
    rw [List.length_map]
    rfl
  · intro i h1 h2 h3
    simp only [MatrixColumn.get_positions, List.mem_filterMap]
    refine ⟨i, List.mem_range.mpr (by omega), ?_⟩
    rw [if_pos ⟨h2, h3⟩]
  · intro q hq
    simp only [MatrixColumn.get_positions, List.mem_filterMap] at hq
    obtain ⟨i, _, hsome⟩ := hq
    split at hsome
    · cases hsome
      simp only [decide_eq_true_eq]
      omega
    · cases hsome

/-- Witness for C1: the head cell of `wCol` (offset 0, row 3) is returned. -/
theorem get_positions_spec_witness :
    (((0 : Nat) : Int) < wCol.length ∧ 0 ≤ wCol.y - ((0 : Nat) : Int) ∧
      wCol.y - ((0 : Nat) : Int) < wCol.height) ∧
    (wCol.y - ((0 : Nat) : Int), wCol.chars.getD (headIndex wCol 0) ' ', decide ((0 : Nat) = 0))
      ∈ wCol.get_positions :=
  ⟨by decide, (get_positions_spec wCol).2.2.1 0 (by decide) (by decide) (by decide)⟩

/-- On a non-empty buffer, the exception-aware traversal of the trail
offsets succeeds and collects exactly the conditional lookups. -/
theorem getPosAux_eq_some (c : MatrixColumn) (hpos : 0 < c.chars.length) (l : List Nat) :
    getPosAux c l = some (l.filterMap fun (i : Nat) =>
      if 0 ≤ c.y - (i : Int) ∧ c.y - (i : Int) < c.height then
        some (c.y - (i : Int), c.chars.getD (headIndex c i) ' ', decide (i = 0))
      else none) := by
  induction l with
  | nil => rfl
  | cons i is ih =>
    by_cases h : 0 ≤ c.y - (i : Int) ∧ c.y - (i : Int) < c.height
    · have hidx : headIndex c i < c.chars.length := by
        have h1 := Int.emod_nonneg (c.y + (i : Int))
          (by omega : ((c.chars.length : Int) ≠ 0))
        have h2 := Int.emod_lt_of_pos (c.y + (i : Int))
          (by omega : ((0 : Int) < (c.chars.length : Int)))
        simp only [headIndex]
        omega
      have hget : c.chars.get? (headIndex c i) = some (c.chars.getD (headIndex c i) ' ') := by
        simp [List.get?_eq_getElem?, List.getElem?_eq_getElem hidx, List.getD_eq_getElem?_getD]
      have hzero : ¬(c.chars.length = 0) := Nat.pos_iff_ne_zero.mp hpos
      simp only [getPosAux, if_pos h, if_neg hzero, hget, List.filterMap_cons, ih]
      rfl
    · simp only [getPosAux, if_neg h, List.filterMap_cons, ih]

/-- C10: under the buffer invariant that `reset` establishes (height ≥ 0,
trail length ≥ 4, buffer size = height + length + 10) the buffer is
non-empty, every cyclic lookup index (y + i) mod len(chars) is in [0,
len(chars)) even for negative head positions, and the exception-aware
`getPositionsE` never fails: it returns exactly `get_positions`. -/
theorem get_positions_total (c : MatrixColumn)
    (h0 : 0 ≤ c.height) (h4 : 4 ≤ c.length)
    (hc : (c.chars.length : Int) = c.height + c.length + 10) :
    0 < c.chars.length ∧
    (∀ i : Nat, headIndex c i < c.chars.length) ∧
    c.getPositionsE = some c.get_positions := by
  have hpos : 0 < c.chars.length := by omega
  have hidx : ∀ i : Nat, headIndex c i < c.chars.length := by
    intro i
    have h1 := Int.emod_nonneg (c.y + (i : Int))
      (by omega : ((c.chars.length : Int) ≠ 0))
    have h2 := Int.emod_lt_of_pos (c.y + (i : Int))
      (by omega : ((0 : Int) < (c.chars.length : Int)))
    simp only [headIndex]
    omega
  exact ⟨hpos, hidx, getPosAux_eq_some c hpos _⟩

/-- Witness for C10: the height-10, trail-4 column `wCol2` with its
24-character buffer and negative head position. -/
theorem get_positions_total_witness :
    (0 ≤ wCol2.height ∧ 4 ≤ wCol2.length ∧
      (wCol2.chars.length : Int) = wCol2.height + wCol2.length + 10) ∧
    0 < wCol2.chars.length ∧ wCol2.getPositionsE = some wCol2.get_positions :=
  ⟨by decide,
   (get_positions_total wCol2 (by decide) (by decide) (by decide)).1,
   (get_positions_total wCol2 (by decide) (by decide) (by decide)).2.2⟩

/-- C4 counterexample: on `["AB", "CD"]` with zero delays the color cycle
advances twice (once per word, and each line is a single word), not four
times, and the pass still sleeps 0.5 s because of the fixed 0.25 s
per-line pause — so the claimed "4 advances, no blocking" is false. -/
theorem typing_pass_claim_false :
    (type_bio_overlay 24 80 ["AB", "CD"] 0 0 0).cnt = 2 ∧
    (type_bio_overlay 24 80 ["AB", "CD"] 0 0 0).sleep = 1/2 ∧
    ¬((type_bio_overlay 24 80 ["AB", "CD"] 0 0 0).cnt = 4 ∧
      (type_bio_overlay 24 80 ["AB", "CD"] 0 0 0).sleep = 0) := by
  refine ⟨?_, ?_, ?_⟩ <;>
    norm_num +decide [type_bio_overlay, typeLines, typeLine, typeWord, typeChar, tryAddch,
      splitWords, center_x_for_text]

/-- C4 (amended): on lines ["AB", "CD"] with zero word and character
delays, one full typing pass attempts exactly the six glyphs
'A','B',' ','C','D',' ' — the four characters plus the two trailing
spaces — advances the shared color cycle exactly twice (once per word),
and terminates with 0.5 s of sleeping left: the fixed 0.25 s per-line
pause on each of the two lines. -/
theorem typing_pass_AB_CD (h w : Int) (c0 : Nat) :
    (type_bio_overlay h w ["AB", "CD"] c0 0 0).attempts.map (fun a => a.2.2.1)
      = ['A', 'B', ' ', 'C', 'D', ' '] ∧
    (type_bio_overlay h w ["AB", "CD"] c0 0 0).cnt = c0 + 2 ∧
    (type_bio_overlay h w ["AB", "CD"] c0 0 0).sleep = 1/2 := by
  refine ⟨?_, ?_, ?_⟩ <;>
    norm_num +decide [type_bio_overlay, typeLines, typeLine, typeWord, typeChar, tryAddch,
      splitWords, center_x_for_text]

/-- A property preserved by each step of a left fold is preserved by the
whole fold. -/
theorem foldl_inv {σ α : Type} (P : σ → Prop) (f : σ → α → σ)
    (hf : ∀ s a, P s → P (f s a)) (l : List α) (s : σ) (hs : P s) :
    P (l.foldl f s) := by
  induction l generalizing s with
  | nil => exact hs
  | cons a l ih => exact ih _ (hf s a hs)

/-- `tryAddch` keeps the caught-write bookkeeping consistent. -/
theorem tryAddch_inv (h w : Int) (s : TState) (y : Int) (ch : Char) (pair : Nat)
    (hs : WritesInv h w s) : WritesInv h w (tryAddch h w s y ch pair) := by
  unfold WritesInv tryAddch
  unfold WritesInv at hs
  simp only [List.filter_append, hs]
  by_cases hb : addch_ok h w y s.x <;> simp [List.filter, hb]

/-- `typeChar` preserves the write bookkeeping. -/
theorem typeChar_inv (h w y : Int) (pair : Nat) (cd : ℚ) (s : TState) (ch : Char)
    (hs : WritesInv h w s) : WritesInv h w (typeChar h w y pair cd s ch) :=
  tryAddch_inv h w s y ch pair hs

/-- `typeWord` preserves the write bookkeeping. -/
theorem typeWord_inv (h w y : Int) (wd cd : ℚ) (s : TState) (word : List Char)
    (hs : WritesInv h w s) : WritesInv h w (typeWord h w y wd cd s word) := by
  unfold typeWord
  exact tryAddch_inv h w _ y ' ' 0
    (foldl_inv (WritesInv h w) _ (fun s' ch hs' => typeChar_inv h w y _ cd s' ch hs') word _ hs)

/-- `typeLine` preserves the write bookkeeping. -/
theorem typeLine_inv (h w y : Int) (wd cd : ℚ) (s : TState) (line : String)
    (hs : WritesInv h w s) : WritesInv h w (typeLine h w y wd cd s line) := by
  unfold typeLine
  exact foldl_inv (WritesInv h w) _ (fun s' word hs' => typeWord_inv h w y wd cd s' word hs')
    (splitWords line.toList) _ hs

/-- `typeLines` preserves the write bookkeeping. -/
theorem typeLines_inv (h w : Int) (wd cd : ℚ) (y : Int) (s : TState) (ls : List String)
    (hs : WritesInv h w s) : WritesInv h w (typeLines h w wd cd y s ls) := by
  induction ls generalizing y s with
  | nil => exact hs
  | cons l ls ih => exact ih _ _ (typeLine_inv h w y wd cd s l hs)

/-- Per column, the caught per-cell draw equals filtering the rendered
cells by the bounds check. -/
theorem draw_col_eq (h w cx : Int) (ps : List (Int × Char × Bool)) :
    (ps.flatMap fun p => if addch_ok h w p.1 cx then [rainAttempt cx p] else [])
      = (ps.map (rainAttempt cx)).filter (fun a => addch_ok h w a.1 a.2.1) := by
  induction ps with
  | nil => rfl
  | cons p ps ih =>
    simp only [List.flatMap_cons, List.map_cons, List.filter_cons]
    by_cases hb : addch_ok h w p.1 cx
    · have hb' : addch_ok h w (rainAttempt cx p).1 (rainAttempt cx p).2.1 = true := hb
      simp [hb, hb', ih]
    · have hb' : ¬(addch_ok h w (rainAttempt cx p).1 (rainAttempt cx p).2.1 = true) := hb
      simp [hb, hb', ih]

/-- C6: drawing out of bounds is discarded per cell and only per cell:
`draw_matrix` yields exactly the in-bounds rain cells (each in-bounds cell
is drawn no matter how many other cells are off screen), and the typing
overlay's landed writes are exactly the in-bounds part of its attempted
writes — no error escapes either routine, which both return normally. -/
theorem oob_write_discarded (h w : Int) (cols : List MatrixColumn)
    (lines : List String) (c0 : Nat) (wd cd : ℚ) :
    draw_matrix h w cols
      = (matrixAttempts cols).filter (fun a => addch_ok h w a.1 a.2.1) ∧
    (∀ a ∈ matrixAttempts cols, addch_ok h w a.1 a.2.1 = true →
      a ∈ draw_matrix h w cols) ∧
    (type_bio_overlay h w lines c0 wd cd).writes
      = (type_bio_overlay h w lines c0 wd cd).attempts.filter
          (fun a => addch_ok h w a.1 a.2.1) ∧
    (∀ a ∈ (type_bio_overlay h w lines c0 wd cd).attempts,
      addch_ok h w a.1 a.2.1 = true →
        a ∈ (type_bio_overlay h w lines c0 wd cd).writes) := by
  have hdraw : draw_matrix h w cols
      = (matrixAttempts cols).filter (fun a => addch_ok h w a.1 a.2.1) := by
    unfold draw_matrix matrixAttempts
    induction cols with
    | nil => rfl
    | cons col cols ih =>
      simp only [List.flatMap_cons, List.filter_append]
      rw [draw_col_eq, ih]
  have htype : WritesInv h w (type_bio_overlay h w lines c0 wd cd) :=
    typeLines_inv h w wd cd _ _ lines rfl
  refine ⟨hdraw, ?_, htype, ?_⟩
  · intro a ha hb
    rw [hdraw]
    exact List.mem_filter.mpr ⟨ha, hb⟩
  · intro a ha hb
    rw [htype]
    exact List.mem_filter.mpr ⟨ha, hb⟩

/-- Witness for C6: on a 5-by-5 screen the head cell of `wCol` (row 3,
column 0) is in bounds and is indeed drawn. -/
theorem oob_write_discarded_witness :
    (((3 : Int), (0 : Int), 'd', (50 : Nat)) ∈ matrixAttempts [wCol] ∧
      addch_ok 5 5 (3 : Int) (0 : Int) = true) ∧
    ((3 : Int), (0 : Int), 'd', (50 : Nat)) ∈ draw_matrix 5 5 [wCol] :=
  ⟨⟨by decide, by decide⟩,
   (oob_write_discarded 5 5 [wCol] ["A"] 0 0 0).2.1 (3, 0, 'd', 50) (by decide) (by decide)⟩

/-- C7 counterexample: on a display-initialization failure the exit code
is 1, but both diagnostic lines are `print`ed to standard output — no
message goes to standard error, contrary to the claim. -/
theorem exit_stderr_counterexample :
    (program_exit (.displayError "boom")).1 = 1 ∧
    (program_exit (.displayError "boom")).2
      = [(OutStream.stdout,
          "Terminal does not support curses or is too small. Run in a normal terminal."),
         (OutStream.stdout, "Error: boom")] ∧
    OutStream.stdout ≠ OutStream.stderr := by
  refine ⟨rfl, rfl, by decide⟩

/-- C7 (amended): exit code 0 on the quit key and on a user interrupt;
exit code 1 when display initialization fails, in which case a non-empty
human-readable diagnostic is reported — to standard output, not to
standard error. -/
theorem exit_codes_spec (m : String) :
    (program_exit .quitKey).1 = 0 ∧
    (program_exit .interrupt).1 = 0 ∧
    (program_exit (.displayError m)).1 = 1 ∧
    (program_exit (.displayError m)).2 ≠ [] ∧
    ∀ o ∈ (program_exit (.displayError m)).2, o.1 = OutStream.stdout := by
  refine ⟨rfl, rfl, rfl, by simp [program_exit], ?_⟩
  intro o ho
  simp only [program_exit, List.mem_cons, List.mem_singleton] at ho
  rcases ho with h | h | h
  · rw [h]
  · rw [h]
  · cases h

/-- Witness for C7 (amended) at the concrete error message "boom". -/
theorem exit_codes_spec_witness :
    (program_exit (.displayError "boom")).1 = 1 ∧
    (OutStream.stdout, "Error: boom") ∈ (program_exit (.displayError "boom")).2 ∧
    ((OutStream.stdout, "Error: boom") : OutStream × String).1 = OutStream.stdout :=
  ⟨(exit_codes_spec "boom").2.2.1, by decide,
   (exit_codes_spec "boom").2.2.2.2 (OutStream.stdout, "Error: boom") (by decide)⟩

/-- In repeat mode a triggered column of control flow stays triggered:
`afterOverlay` re-queues the overlay. -/
theorem afterOverlay_do_type (s : LoopState) (h : s.do_type = true) :
    (afterOverlay true s).do_type = true := by
  unfold afterOverlay
  split
  · rfl
  · exact h

/-- The guard in repeat mode is exactly `do_type`. -/
theorem typesNow_true (s : LoopState) : typesNow true s = s.do_type := by
  unfold typesNow
  cases s.do_type <;> simp

/-- In repeat mode every recorded iteration types, as long as the
starting state is triggered. -/
theorem run_all_true (events : List InEvent) : ∀ s : LoopState, s.do_type = true →
    ∀ b ∈ runLoop true s events, b = true := by
  induction events with
  | nil => intro s _ b hb; cases hb
  | cons e es ih =>
    intro s hdo b hb
    cases e with
    | qKey => cases hb
    | spaceKey =>
      have hb' : b ∈ typesNow true { s with do_type := true }
          :: runLoop true (afterOverlay true { s with do_type := true }) es := hb
      rcases List.mem_cons.mp hb' with h | h
      · rw [h, typesNow_true]
      · exact ih _ (afterOverlay_do_type _ rfl) b h
    | otherKey =>
      have hb' : b ∈ typesNow true s :: runLoop true (afterOverlay true s) es := hb
      rcases List.mem_cons.mp hb' with h | h
      · rw [h, typesNow_true]; exact hdo
      · exact ih _ (afterOverlay_do_type _ hdo) b h
    | noKey =>
      have hb' : b ∈ typesNow true s :: runLoop true (afterOverlay true s) es := hb
      rcases List.mem_cons.mp hb' with h | h
      · rw [h, typesNow_true]; exact hdo
      · exact ih _ (afterOverlay_do_type _ hdo) b h

/-- The one-iteration count bound in one-shot mode: an iteration that
types completes the pass, after which the tail contributes nothing. -/
theorem count_cons_run (s1 : LoopState) (es : List InEvent)
    (h : (runLoop false (afterOverlay false s1) es).count true
      ≤ (if (afterOverlay false s1).typed then 0 else 1)) :
    (typesNow false s1 :: runLoop false (afterOverlay false s1) es).count true
      ≤ (if s1.typed then 0 else 1) := by
  cases hdo : s1.do_type <;> cases hty : s1.typed <;>
    simp_all [typesNow, afterOverlay, List.count_cons]

/-- C8: with --repeat, once typing has been triggered (`do_type` set) the
overlay runs again on every subsequent iteration until quit; without
--repeat the overlay runs at most once over the entire run, and never
again once a pass has completed (`typed` set) — later trigger key presses
do not restart it. -/
theorem repeat_vs_oneshot (s : LoopState) (events : List InEvent) :
    (s.do_type = true → ∀ b ∈ runLoop true s events, b = true) ∧
    (runLoop false s events).count true ≤ (if s.typed then 0 else 1) := by
  constructor
  · exact fun h => run_all_true events s h
  · induction events generalizing s with
    | nil => simp [runLoop]
    | cons e es ih =>
      cases e with
      | qKey => simp [runLoop, applyInput]
      | spaceKey => exact count_cons_run { s with do_type := true } es (ih _)
      | otherKey => exact count_cons_run s es (ih _)
      | noKey => exact count_cons_run s es (ih _)

/-- Witness for C8: from a triggered, untyped state over two idle frames,
repeat mode types on both iterations; one-shot mode types at most once. -/
theorem repeat_vs_oneshot_witness :
    ((LoopState.mk false true).do_type = true ∧
      true ∈ runLoop true (LoopState.mk false true) [InEvent.noKey, InEvent.noKey] ∧
      true = true) ∧
    (runLoop false (LoopState.mk false true) [InEvent.noKey, InEvent.noKey]).count true
      ≤ (if (LoopState.mk false true).typed then 0 else 1) :=
  ⟨⟨rfl, by decide,
    (repeat_vs_oneshot (LoopState.mk false true) [InEvent.noKey, InEvent.noKey]).1
      rfl true (by decide)⟩,
   (repeat_vs_oneshot (LoopState.mk false true) [InEvent.noKey, InEvent.noKey]).2⟩

/-- C9 counterexample: `--lines` with zero strings parses to an empty
list, which is falsy, so the default bio block is installed rather than
the user's (empty) sequence — the overlay content differs from the
supplied lines. -/
theorem lines_empty_counterexample :
    resolve_lines (some []) = BIO_LINES ∧ resolve_lines (some []) ≠ ([] : List String) := by
  exact ⟨rfl, by decide⟩

/-- C9 (amended): `--lines` with one or more strings overrides the
default bio block exactly; with zero strings, or with the flag absent,
the default `BIO_LINES` is used. -/
theorem lines_override (ls : List String) (h : ls ≠ []) :
    resolve_lines (some ls) = ls ∧ resolve_lines none = BIO_LINES := by
  refine ⟨?_, rfl⟩
  simp [resolve_lines, h]

/-- Witness for C9 (amended) on the two-line override ["X", "Y"]. -/
theorem lines_override_witness :
    (["X", "Y"] : List String) ≠ [] ∧
    (resolve_lines (some ["X", "Y"]) = ["X", "Y"] ∧ resolve_lines none = BIO_LINES) :=
  ⟨by decide, lines_override ["X", "Y"] (by decide)⟩

end BioMatrix
